import Mathlib

/-!
Shallow embedding of the extraction, merge and scoring core of the
nyc-heat-newsletter program (src/newsletter.py and src/config.py), together
with theorems settling the specification's claims.

Modelling conventions:
* Python strings are Lean `String`s; character-level operations work on
  `String.data : List Char`.
* The regular expressions used by the code have pairwise disjoint
  character classes, so greedy matching without backtracking is exact;
  they are translated into explicit character-list parsers.
* Python `\s` and `str.strip()` whitespace is modelled by ASCII
  whitespace (space, tab, newline, carriage return, vertical tab, form
  feed); the program's data contains no exotic Unicode whitespace.
* Python truthiness on optional string fields (`None` and `""` are both
  falsy) is modelled by `pyTruthy` and `pyOr`.
* `Optional[X]` fields are `Option X`; in-place mutation is replaced by
  record updates, and functions that mutate lists return new lists.
-/

/-- ASCII whitespace, modelling Python's `str.strip()` and `\s`. -/
def isSpc (c : Char) : Bool :=
  c == ' ' || c == '\t' || c == '\n' || c == '\r' || c == '\x0b' || c == '\x0c'

/-- ASCII digit (code points 48..57), modelling Python's `\d`. -/
def isDigitChar (c : Char) : Bool :=
  48 ≤ c.toNat && c.toNat ≤ 57

/-- The ordinal punctuation class `[\.\)\-–—:]` used by
`_strip_leading_numbering` and `_leading_num`. -/
def ordPunct (c : Char) : Bool :=
  c == '.' || c == ')' || c == '-' || c == '–' || c == '—' || c == ':'

/-- The character class `[a-z0-9 '&-]` kept by `_norm_name`; by code point:
a-z is 97..122, 0-9 is 48..57, space 32, apostrophe 39, ampersand 38,
hyphen 45. -/
def allowedChar (c : Char) : Bool :=
  (97 ≤ c.toNat && c.toNat ≤ 122) || (48 ≤ c.toNat && c.toNat ≤ 57) ||
    c == ' ' || c == '\'' || c == '&' || c == '-'

/-- Python `str.strip()` on a character list. -/
def trimL (cs : List Char) : List Char :=
  ((cs.dropWhile isSpc).reverse.dropWhile isSpc).reverse

/-- `re.sub(r"\s+", " ", ...)`: every maximal whitespace run becomes one
space.  `prevWs` records whether the previous character was whitespace. -/
def collapseWs (prevWs : Bool) : List Char → List Char
  | [] => []
  | c :: t =>
    if isSpc c then
      if prevWs then collapseWs true t else ' ' :: collapseWs true t
    else c :: collapseWs false t

/-- `re.sub(r"[’’]", "'", ...)`: the Unicode right single quotation
mark becomes an ASCII apostrophe. -/
def aposL (cs : List Char) : List Char :=
  cs.map (fun c => if c == '’' then '\'' else c)

/-- The anchored regex `^\s*\d+\s*[\.\)\-–—:]\s*` of
`_strip_leading_numbering`: drop the prefix when it matches, else return
the input unchanged. -/
def stripOrdL (cs : List Char) : List Char :=
  let t1 := cs.dropWhile isSpc
  let ds := t1.takeWhile isDigitChar
  if ds.isEmpty then cs
  else
    match (t1.dropWhile isDigitChar).dropWhile isSpc with
    | [] => cs
    | p :: rest => if ordPunct p then rest.dropWhile isSpc else cs

/-- `_strip_leading_numbering`: strip an ordinal prefix, then `strip()`;
the empty string is returned unchanged. -/
def stripLeadingNumbering (s : String) : String :=
  if s.data.isEmpty then s else ⟨trimL (stripOrdL s.data)⟩

/-- Decimal value of a digit run, for `int(m.group(1))`. -/
def digitsToNat (ds : List Char) : Nat :=
  ds.foldl (fun a c => a * 10 + (c.toNat - 48)) 0

/-- `_leading_num`: the regex `^\s*(\d{1,3})\s*[\.\)\-–—:]\s*` under
`re.match`; a leading digit run of four or more digits can never match. -/
def leadingNum (s : String) : Option Nat :=
  let t1 := s.data.dropWhile isSpc
  let ds := t1.takeWhile isDigitChar
  if ds.length = 0 || 3 < ds.length then none
  else
    match (t1.dropWhile isDigitChar).dropWhile isSpc with
    | [] => none
    | p :: _ => if ordPunct p then some (digitsToNat ds) else none

/-- Python `str.lower()` (the program's data is ASCII). -/
def lowerStr (s : String) : String :=
  ⟨s.data.map Char.toLower⟩

/-- Contiguous-sublist test on character lists. -/
def infixOfL (needle : List Char) : List Char → Bool
  | [] => needle.isEmpty
  | c :: t => needle.isPrefixOf (c :: t) || infixOfL needle t

/-- Python substring test `needle in hay`. -/
def containsStr (hay needle : String) : Bool :=
  infixOfL needle.data hay.data

/-- Python `hay.startswith(p)`. -/
def startsWithStr (hay p : String) : Bool :=
  p.data.isPrefixOf hay.data

/-- Python `str.strip()`. -/
def trimStr (s : String) : String :=
  ⟨trimL s.data⟩

/-- `_norm_name`: strip ordinal numbering, lower-case and strip, unify
apostrophes, collapse whitespace, restrict to `[a-z0-9 '&-]`. -/
def normName (s : String) : String :=
  let n1 := (stripLeadingNumbering s).data
  let n2 := trimL (n1.map Char.toLower)
  let n3 := collapseWs false (aposL n2)
  ⟨n3.filter allowedChar⟩

/-- The scoring weights record (the keys of config.WEIGHTS). -/
structure Weights where
  both_sources_bonus : Int
  new_this_month_bonus : Int
  carried_over_bonus : Int
  language_intensity_max : Int
  reservation_scarcity_max : Int
deriving Repr, DecidableEq

/-- The shipped values of config.WEIGHTS. -/
def WEIGHTS : Weights := ⟨40, 20, 10, 15, 15⟩

/-- config.INTENSITY_KEYWORDS, in dict insertion order. -/
def INTENSITY_KEYWORDS : List (Int × List String) :=
  [ (5, ["buzz", "buzzy", "hype", "hot", "hottest", "must-try", "viral"]),
    (8, ["line", "lines", "packed", "crowded", "always full", "slam", "slammed"]),
    (12, ["hard to book", "tough reservation", "impossible", "sold out", "booked up"]),
    (15, ["the hardest", "nearly impossible", "months out"]) ]

/-- config.SCARCITY_KEYWORDS, in dict insertion order. -/
def SCARCITY_KEYWORDS : List (Int × List String) :=
  [ (5, ["reservations recommended", "book ahead", "limited seating"]),
    (8, ["reservation release", "drops", "at noon", "at 10am", "set your alarm"]),
    (12, ["walk-in only", "walk ins only", "no reservations", "bar seats", "counter seats"]),
    (15, ["ticketed", "prepaid", "waiting list"]) ]

/-- `_REJECT_EXACT` from newsletter.py. -/
def REJECT_EXACT : List String :=
  [ "about", "careers", "nearby restaurants", "top rated", "new on resy", "events",
    "features", "plans & pricing", "why resy os", "request a demo", "resy help desk",
    "global privacy policy", "terms of service", "cookie policy", "accessibility statement",
    "resy os overview", "resy os dashboard", "for restaurants", "resy", "get resy emails",
    "the resy credit", "global dining access", "discover more", "craving something else" ]

/-- `_BAD_NAME_FRAGMENTS` from newsletter.py. -/
def BAD_NAME_FRAGMENTS : List String :=
  [ "newest restaurant openings", "now on resy", "newsletter", "sign up", "subscribe",
    "follow us", "gift card", "resy events", "private dining", "more from resy",
    "read more", "updated", "where to eat", "the hit list", "the heatmap" ]

/-- Remainder of the month-and-day regex after a three-letter month
alternative: `[a-z]*\.?\s+\d{1,2}$`. -/
def monthDayTail (cs : List Char) : Bool :=
  let r1 := cs.dropWhile (fun c => 97 ≤ c.toNat && c.toNat ≤ 122)
  let r2 := match r1 with
    | '.' :: t => t
    | t => t
  match r2 with
  | c :: t =>
    if isSpc c then
      let r3 := t.dropWhile isSpc
      !r3.isEmpty && r3.length ≤ 2 && r3.all isDigitChar
    else false
  | [] => false

/-- The regex `^(jan|feb|mar|apr|may|jun|jul|aug|sep|oct|nov|dec)[a-z]*\.?\s+\d{1,2}$`
from `_looks_like_restaurant_name` (under `re.match`, hence anchored). -/
def monthDayMatch (s : String) : Bool :=
  (["jan", "feb", "mar", "apr", "may", "jun", "jul", "aug",
    "sep", "oct", "nov", "dec"]).any
    (fun m => m.data.isPrefixOf s.data && monthDayTail (s.data.drop 3))

/-- The fullmatch test on the class of digits, whitespace, hyphen, slash,
comma, colon and dot (the digits-and-punctuation reject rule), requiring
at least one character. -/
def digitsPunctOnly (s : String) : Bool :=
  !s.data.isEmpty && s.data.all (fun c =>
    isDigitChar c || isSpc c || c == '-' || c == '/' || c == ',' || c == ':' || c == '.')

/-- The content rules of `_looks_like_restaurant_name` that follow the
length check, applied to the stripped candidate `n`: reject-list,
month-and-day pattern, marketing prefixes, promotional fragments, and
digits-and-punctuation-only strings. -/
def nameContentChecks (n : String) : Bool :=
  let low := lowerStr n
  if REJECT_EXACT.contains low then false
  else if monthDayMatch low then false
  else if (["a ", "an ", "the ", "watch ", "viewing ", "buffet ", "four-course"]).any
      (fun p => startsWithStr low p) then false
  else if BAD_NAME_FRAGMENTS.any (fun b => containsStr low b) then false
  else if digitsPunctOnly n then false
  else true

/-- `_looks_like_restaurant_name` from newsletter.py. -/
def looksLikeRestaurantName (name : String) : Bool :=
  if name == "" then false
  else
    let n := stripLeadingNumbering (trimStr name)
    if n.length < 2 || 80 < n.length then false
    else nameContentChecks n

/-- The `Restaurant` dataclass of newsletter.py. -/
structure Restaurant where
  name : String
  url : Option String := none
  image_url : Option String := none
  neighborhood : Option String := none
  cuisine : Option String := none
  why_hot : Option String := none
  sources : Option (List String) := none
  heat_score : Int := 0
  res_difficulty : String := "Moderate"
  booking_tip : String := "Book ahead when possible; aim for off-peak times."
  notes : Option String := none
deriving Repr, DecidableEq, Inhabited

/-- Python truthiness of an optional string: `None` and `""` are falsy. -/
def pyTruthy : Option String → Bool
  | none => false
  | some s => !(s == "")

/-- Python `a or b` on optional strings. -/
def pyOr (a b : Option String) : Option String :=
  if pyTruthy a then a else b

/-- Lexicographic code-point comparison on character lists (Python's
string ordering). -/
def lexLtL : List Char → List Char → Bool
  | [], [] => false
  | [], _ :: _ => true
  | _ :: _, [] => false
  | a :: as, b :: bs => a.toNat < b.toNat || (a == b && lexLtL as bs)

/-- Python's `<` on strings: lexicographic by code point. -/
def strLt (a b : String) : Bool :=
  lexLtL a.data b.data

/-- Insert a string into a sorted duplicate-free list, keeping it sorted
and duplicate-free. -/
def insertStr (s : String) : List String → List String
  | [] => [s]
  | x :: t => if s == x then x :: t else if strLt s x then s :: x :: t else x :: insertStr s t

/-- `sorted(list(set(a + b)))` from `dedupe`: the distinct elements of
`a ++ b` in increasing order. -/
def sortedUnion (a b : List String) : List String :=
  (a ++ b).foldr insertStr []

/-- The image-precedence computation inside `dedupe`'s merge: `srcs` is
the already-updated union list of the existing entry, `rs` the incoming
entry's sources, `eimg` and `rimg` the two images.  An incoming Eater
image wins; else an existing image on a record whose (merged) sources
mention Eater; else Python `or`. -/
def mergeImage (srcs rs : List String) (eimg rimg : Option String) : Option String :=
  let eater1 := if !srcs.isEmpty && srcs.contains "Eater" && pyTruthy eimg then eimg else none
  let eater2 := if !rs.isEmpty && rs.contains "Eater" && pyTruthy rimg then rimg else eater1
  if pyTruthy eater2 then eater2 else pyOr eimg rimg

/-- The merge of an incoming entry `r` into the existing entry `e` for the
same key, from the body of `dedupe`.  The sources union is assigned first;
the Eater-image check then reads the already-updated sources list, exactly
as the code does. -/
def mergeInto (e r : Restaurant) : Restaurant :=
  let es := e.sources.getD []
  let rs := r.sources.getD []
  let srcs := sortedUnion es rs
  { e with
    sources := some srcs,
    url := pyOr e.url r.url,
    why_hot := pyOr e.why_hot r.why_hot,
    neighborhood := pyOr e.neighborhood r.neighborhood,
    cuisine := pyOr e.cuisine r.cuisine,
    image_url := mergeImage srcs rs e.image_url r.image_url }

/-- One step of `dedupe`'s loop: strip the entry's name, compute its key,
then merge into the existing entry for that key or append a new one.
`seen` models the insertion-ordered dict. -/
def dedupeStep (seen : List (String × Restaurant)) (r : Restaurant) :
    List (String × Restaurant) :=
  let r1 := { r with name := stripLeadingNumbering r.name }
  let key := normName r1.name
  if seen.any (fun p => p.1 == key) then
    seen.map (fun p => if p.1 == key then (p.1, mergeInto p.2 r1) else p)
  else seen ++ [(key, r1)]

/-- `dedupe` from newsletter.py: one entry per normalized name, in first
encounter order. -/
def dedupe (items : List Restaurant) : List Restaurant :=
  (items.foldl dedupeStep []).map (fun p => p.2)

/-- The bucket fold inside `keyword_score`: every bucket whose keyword list
has a substring match raises the running maximum to its value. -/
def bucketFold (t : String) (buckets : List (Int × List String)) (init : Int) : Int :=
  buckets.foldl (fun b q => if q.2.any (fun kw => containsStr t kw) then max b q.1 else b) init

/-- `keyword_score` from newsletter.py. -/
def keywordScore (text : String) (buckets : List (Int × List String)) (maxScore : Int) : Int :=
  if text == "" then 0
  else min (bucketFold (lowerStr text) buckets 0) maxScore

/-- `reservation_intel` from newsletter.py: difficulty classification and
booking tip. -/
def reservationIntel (r : Restaurant) : String × String :=
  let text := lowerStr (r.why_hot.getD "")
  let urlS := r.url.getD ""
  let platformResy := pyTruthy r.url && containsStr urlS "resy.com"
  let platformOT := !platformResy && pyTruthy r.url && containsStr urlS "opentable.com"
  let brutal := (["impossible", "sold out", "months out", "hardest", "booked up"]).any
    (fun k => containsStr text k)
  let hard := (["hard to book", "tough reservation", "set your alarm", "reservation release", "drops"]).any
    (fun k => containsStr text k)
  let easy := (["walk-in friendly", "plenty of seats", "easy to book", "no problem getting in"]).any
    (fun k => containsStr text k)
  let diff := if brutal then "Brutal" else if hard then "Hard" else if easy then "Easy" else "Moderate"
  let tip :=
    if containsStr text "walk-in" || containsStr text "walk ins" then
      "Treat it like a walk-in: go early (before 6pm) or late, and be flexible on party size."
    else if platformResy || containsStr text "resy" then
      "Use Resy: check common drop times (often mornings), enable notifications, and target bar/counter seats."
    else if platformOT || containsStr text "opentable" then
      "Use OpenTable: book 1–2 weeks out, then set alerts for earlier times and watch for last-minute openings."
    else
      "Book ahead where possible; otherwise aim for off-peak (early/late) and consider bar seating."
  (diff, tip)

/-- The per-entry scoring step of `compute_heat`, parametrized by the
weights and keyword tables (the configuration).  `lastSet` holds the
normalized last-period names. -/
def scoreOne (W : Weights) (intensity scarcity : List (Int × List String))
    (lastSet : List String) (r : Restaurant) : Restaurant :=
  let srcs := r.sources.getD []
  let s1 : Int := if "Resy" ∈ srcs ∧ "Eater" ∈ srcs then W.both_sources_bonus else 0
  let s2 : Int := if normName r.name ∈ lastSet then W.carried_over_bonus else W.new_this_month_bonus
  let why := r.why_hot.getD ""
  let s3 := keywordScore why intensity W.language_intensity_max
  let s4 := keywordScore why scarcity W.reservation_scarcity_max
  let dt := reservationIntel r
  { r with heat_score := max 0 (min 100 (s1 + s2 + s3 + s4)),
           res_difficulty := dt.1, booking_tip := dt.2 }

/-- Stable descending insertion by heat score: a new entry goes after every
already-placed entry with an equal or higher score. -/
def insertByHeat (r : Restaurant) : List Restaurant → List Restaurant
  | [] => [r]
  | x :: t => if x.heat_score < r.heat_score then r :: x :: t else x :: insertByHeat r t

/-- Stable descending sort by heat score (Python's `list.sort` with
`reverse=True` is stable, and all stable sorts agree). -/
def sortByHeat (l : List Restaurant) : List Restaurant :=
  l.foldl (fun acc r => insertByHeat r acc) []

/-- `compute_heat`, parametrized by configuration: score every entry, then
sort by descending heat score. -/
def computeHeat (W : Weights) (intensity scarcity : List (Int × List String))
    (restaurants : List Restaurant) (last_month_names : List String) : List Restaurant :=
  let lastSet := last_month_names.map normName
  sortByHeat (restaurants.map (scoreOne W intensity scarcity lastSet))

/-- A heading of the Resy Hit List page, reduced to the two text values the
boundary logic reads: `raw` is the heading's `get_text(" ", strip=True)`
and `cleaned` is the result of `_resy_clean_heading_text` (both are DOM
operations, supplied here as data). -/
structure RHeading where
  raw : String
  cleaned : String
deriving Repr, DecidableEq

/-- `RESY_STOP_PHRASES` from `extract_resy_hit_list`. -/
def RESY_STOP_PHRASES : List String :=
  [ "discover more", "recommended", "more from resy", "related",
    "you might also like", "craving something else", "craving something else?" ]

/-- `is_stop_heading` from `extract_resy_hit_list`. -/
def isStopHeadingR (h : RHeading) : Bool :=
  RESY_STOP_PHRASES.any (fun p => containsStr (lowerStr h.raw) p)

/-- `is_numbered_restaurant_heading` from `extract_resy_hit_list`. -/
def isNumberedRestaurantHeadingR (h : RHeading) : Bool :=
  match leadingNum h.cleaned with
  | none => false
  | some _ => looksLikeRestaurantName (stripLeadingNumbering h.cleaned)

/-- `stop_idx`: index of the first stop heading. -/
def stopIdxR (hs : List RHeading) : Option Nat :=
  hs.findIdx? isStopHeadingR

/-- The monotonic-numbering scan producing `last_num_value` and
`last_num_idx`: a numbered restaurant heading updates the state when its
leading number is at least the last accepted value. -/
def lastNumScan (hs : List RHeading) : Option Nat × Option Nat :=
  hs.enum.foldl
    (fun acc p =>
      if isNumberedRestaurantHeadingR p.2 then
        match leadingNum p.2.cleaned with
        | some n =>
          match acc.1 with
          | none => (some n, some p.1)
          | some v => if v ≤ n then (some n, some p.1) else acc
        | none => acc
      else acc)
    (none, none)

/-- `end_exclusive`: the boundary of the usable heading range. -/
def endExclusive (hs : List RHeading) : Nat :=
  match (lastNumScan hs).2, stopIdxR hs with
  | some li, some si => if li < si then li + 1 else si
  | none, some si => si
  | some li, none => li + 1
  | none, none => hs.length

/-- The entry-producing loop of `extract_resy_hit_list` restricted to what
the boundary logic determines: the index and name of every heading that
yields an entry.  The evidence pickers (blurb, image, link) read the DOM
slice of each such heading and do not affect which headings produce
entries. -/
def resyEntryIdxName (hs : List RHeading) : List (Nat × String) :=
  ((hs.take (endExclusive hs)).enum).filterMap (fun p =>
    match leadingNum p.2.cleaned with
    | none => none
    | some _ =>
      let name := stripLeadingNumbering p.2.cleaned
      if looksLikeRestaurantName name then some (p.1, name) else none)

/-- The cleanup loop at the end of `extract_resy_hit_list`: re-strip each
name, then drop non-names and exact reject-list hits. -/
def resyCleanedEntries (hs : List RHeading) : List (Nat × String) :=
  (resyEntryIdxName hs).filterMap (fun p =>
    let nm := stripLeadingNumbering p.2
    if looksLikeRestaurantName nm && !(REJECT_EXACT.contains (lowerStr nm)) then
      some (p.1, nm)
    else none)

/-- An outbound link: absolute URL and anchor text. -/
structure ELink where
  href : String
  anchor : String
deriving Repr, DecidableEq

/-- A heading of the Eater Heatmap page together with the evidence the
per-heading pickers extract from its DOM slice: `text` is the heading's
`get_text(" ", strip=True)`; `blurb`, `image`, `sliceVenueLink` and
`sliceLink` are the results of `_first_real_paragraph_from_slice`,
`_pick_image_from_slice`, the Eater venue-link preference scan and
`_pick_link_from_slice` on that slice; `anchorHref` is the href of the
heading's own anchor, if any. -/
structure EaterHeading where
  text : String
  blurb : Option String := none
  image : Option String := none
  sliceVenueLink : Option String := none
  sliceLink : Option String := none
  anchorHref : Option String := none
deriving Repr, DecidableEq

/-- An Eater Heatmap document: its content headings in document order,
plus the outbound links that lie outside every heading slice. -/
structure EaterDoc where
  headings : List EaterHeading
  strayLinks : List ELink
deriving Repr, DecidableEq

/-- The title gate of `extract_eater_heatmap`'s heading loop. -/
def eaterHeadingGuards (t : String) : Bool :=
  let title := stripLeadingNumbering t
  if !looksLikeRestaurantName title then false
  else
    let low := lowerStr title
    if (["related", "updates"]).any (fun k => containsStr low k) then false
    else if low == "see more" || low == "more maps in eater ny" ||
        startsWithStr low "more maps" then false
    else true

/-- `extract_eater_heatmap`: one entry per accepted heading.  The URL
prefers the slice's Eater venue link, then the slice link pick, then the
heading's own anchor.  The loop reads nothing outside the heading
slices. -/
def extractEaterHeatmap (d : EaterDoc) : List Restaurant :=
  d.headings.filterMap (fun h =>
    if eaterHeadingGuards h.text then
      some { name := stripLeadingNumbering h.text,
             url := pyOr (pyOr h.sliceVenueLink h.sliceLink) h.anchorHref,
             image_url := h.image,
             why_hot := h.blurb,
             sources := some ["Eater"] }
    else none)

/-! Lemmas about the lexicographic order and the sorted set union. -/

theorem char_eq_of_toNat_eq {a b : Char} (h : a.toNat = b.toNat) : a = b := by
  rw [← Char.ofNat_toNat a, ← Char.ofNat_toNat b, h]

theorem lexLtL_irrefl : ∀ (cs : List Char), lexLtL cs cs = false
  | [] => rfl
  | c :: t => by
    simp [lexLtL, lexLtL_irrefl t, Nat.lt_irrefl]

theorem lexLtL_total : ∀ (a b : List Char), a = b ∨ lexLtL a b = true ∨ lexLtL b a = true
  | [], [] => Or.inl rfl
  | [], _ :: _ => Or.inr (Or.inl rfl)
  | _ :: _, [] => Or.inr (Or.inr rfl)
  | a :: as, b :: bs => by
    rcases Nat.lt_trichotomy a.toNat b.toNat with h | h | h
    · exact Or.inr (Or.inl (by simp [lexLtL, h]))
    · have hab : a = b := char_eq_of_toNat_eq h
      subst hab
      rcases lexLtL_total as bs with h2 | h2 | h2
      · exact Or.inl (by rw [h2])
      · exact Or.inr (Or.inl (by simp [lexLtL, h2]))
      · exact Or.inr (Or.inr (by simp [lexLtL, h2]))
    · exact Or.inr (Or.inr (by simp [lexLtL, h]))

theorem lexLtL_asymm : ∀ (a b : List Char), lexLtL a b = true → lexLtL b a = false
  | [], [] => by simp [lexLtL]
  | [], _ :: _ => by simp [lexLtL]
  | _ :: _, [] => by simp [lexLtL]
  | a :: as, b :: bs => by
    simp only [lexLtL, Bool.or_eq_true, Bool.and_eq_true, decide_eq_true_eq, beq_iff_eq]
    rintro (h | ⟨rfl, h⟩)
    · have hne : ¬(b = a) := fun e => by subst e; exact Nat.lt_irrefl _ h
      simp [Nat.not_lt.mpr (Nat.le_of_lt h), hne, Nat.le_of_lt, Nat.lt_asymm h]
    · simp [Nat.lt_irrefl, lexLtL_asymm as bs h]

theorem lexLtL_trans : ∀ (a b c : List Char),
    lexLtL a b = true → lexLtL b c = true → lexLtL a c = true
  | [], [], _ :: _, _, _ => rfl
  | [], _ :: _, _ :: _, _, _ => rfl
  | [], [], [], _, h2 => h2
  | [], _ :: _, [], _, h2 => by simp [lexLtL] at h2
  | _ :: _, [], _, h1, _ => by simp [lexLtL] at h1
  | _ :: _, _ :: _, [], _, h2 => by simp [lexLtL] at h2
  | a :: as, b :: bs, c :: cs, h1, h2 => by
    simp only [lexLtL, Bool.or_eq_true, Bool.and_eq_true, decide_eq_true_eq, beq_iff_eq] at *
    rcases h1 with h1 | ⟨rfl, h1⟩
    · rcases h2 with h2 | ⟨rfl, h2⟩
      · exact Or.inl (Nat.lt_trans h1 h2)
      · exact Or.inl h1
    · rcases h2 with h2 | ⟨rfl, h2⟩
      · exact Or.inl h2
      · exact Or.inr ⟨rfl, lexLtL_trans as bs cs h1 h2⟩

theorem strLt_irrefl (a : String) : strLt a a = false := lexLtL_irrefl a.data

theorem string_eq_of_data_eq {a b : String} (h : a.data = b.data) : a = b := by
  cases a; cases b; exact congrArg String.mk h

theorem strLt_total (a b : String) : a = b ∨ strLt a b = true ∨ strLt b a = true := by
  rcases lexLtL_total a.data b.data with h | h | h
  · exact Or.inl (string_eq_of_data_eq h)
  · exact Or.inr (Or.inl h)
  · exact Or.inr (Or.inr h)

theorem strLt_asymm {a b : String} (h : strLt a b = true) : strLt b a = false :=
  lexLtL_asymm a.data b.data h

theorem strLt_trans {a b c : String} (h1 : strLt a b = true) (h2 : strLt b c = true) :
    strLt a c = true :=
  lexLtL_trans a.data b.data c.data h1 h2

/-- Strictly increasing, hence duplicate-free, string list. -/
def SortedStr (l : List String) : Prop :=
  List.Pairwise (fun a b => strLt a b = true) l

theorem mem_insertStr {y s : String} : ∀ {l : List String},
    y ∈ insertStr s l ↔ y = s ∨ y ∈ l := by
  intro l
  induction l with
  | nil => simp [insertStr]
  | cons x t ih =>
    by_cases h1 : s == x
    · have : s = x := by simpa using h1
      subst this
      simp [insertStr, h1]
    · by_cases h2 : strLt s x
      · simp [insertStr, h1, h2]
      · simp only [insertStr, h1, h2, Bool.false_eq_true, if_false, List.mem_cons, ih]
        tauto

theorem sortedStr_insertStr {s : String} : ∀ {l : List String},
    SortedStr l → SortedStr (insertStr s l) := by
  intro l
  induction l with
  | nil => intro _; simp [insertStr, SortedStr]
  | cons x t ih =>
    intro hp
    rcases (List.pairwise_cons.mp hp) with ⟨hx, ht⟩
    by_cases h1 : s == x
    · simpa [insertStr, h1] using hp
    · by_cases h2 : strLt s x
      · have e : insertStr s (x :: t) = s :: x :: t := by simp [insertStr, h1, h2]
        rw [SortedStr, e]
        refine List.pairwise_cons.mpr ⟨?_, hp⟩
        intro y hy
        rcases List.mem_cons.mp hy with rfl | hy
        · exact h2
        · exact strLt_trans h2 (hx y hy)
      · have e : insertStr s (x :: t) = x :: insertStr s t := by simp [insertStr, h1, h2]
        rw [SortedStr, e]
        refine List.pairwise_cons.mpr ⟨?_, ih ht⟩
        intro y hy
        rcases mem_insertStr.mp hy with rfl | hy
        · rcases strLt_total y x with rfl | hlt | hgt
          · simp at h1
          · exact absurd hlt h2
          · exact hgt
        · exact hx y hy

theorem sortedStr_eq_of_mem_iff : ∀ {l₁ l₂ : List String},
    SortedStr l₁ → SortedStr l₂ → (∀ y, y ∈ l₁ ↔ y ∈ l₂) → l₁ = l₂ := by
  intro l₁
  induction l₁ with
  | nil =>
    intro l₂ _ _ hm
    cases l₂ with
    | nil => rfl
    | cons b t₂ => exact absurd ((hm b).mpr (List.mem_cons_self b t₂)) (List.not_mem_nil b)
  | cons a t₁ ih =>
    intro l₂ h1 h2 hm
    cases l₂ with
    | nil => exact absurd ((hm a).mp (List.mem_cons_self a t₁)) (List.not_mem_nil a)
    | cons b t₂ =>
      rcases List.pairwise_cons.mp h1 with ⟨ha, ht₁⟩
      rcases List.pairwise_cons.mp h2 with ⟨hb, ht₂⟩
      have hab : a = b := by
        rcases List.mem_cons.mp ((hm a).mp (List.mem_cons_self a t₁)) with h | h
        · exact h
        · rcases List.mem_cons.mp ((hm b).mpr (List.mem_cons_self b t₂)) with h' | h'
          · exact h'.symm
          · have hba : strLt b a = true := hb a h
            have hab : strLt a b = true := ha b h'
            exact absurd hba (by simp [strLt_asymm hab])
      subst hab
      have htm : ∀ y, y ∈ t₁ ↔ y ∈ t₂ := by
        intro y
        constructor
        · intro hy
          rcases List.mem_cons.mp ((hm y).mp (List.mem_cons.mpr (Or.inr hy))) with rfl | h
          · exact absurd (ha y hy) (by simp [strLt_irrefl])
          · exact h
        · intro hy
          rcases List.mem_cons.mp ((hm y).mpr (List.mem_cons.mpr (Or.inr hy))) with rfl | h
          · exact absurd (hb y hy) (by simp [strLt_irrefl])
          · exact h
      rw [ih ht₁ ht₂ htm]

theorem mem_sortedUnion {y : String} {a b : List String} :
    y ∈ sortedUnion a b ↔ y ∈ a ∨ y ∈ b := by
  have main : ∀ (l : List String), y ∈ l.foldr insertStr [] ↔ y ∈ l := by
    intro l
    induction l with
    | nil => simp
    | cons x t ih => simp [mem_insertStr, ih]
  rw [sortedUnion, main, List.mem_append]

theorem sortedStr_sortedUnion (a b : List String) : SortedStr (sortedUnion a b) := by
  have main : ∀ (l : List String), SortedStr (l.foldr insertStr []) := by
    intro l
    induction l with
    | nil => exact List.Pairwise.nil
    | cons x t ih => exact sortedStr_insertStr ih
  exact main (a ++ b)

theorem sortedUnion_comm (a b : List String) : sortedUnion a b = sortedUnion b a := by
  refine sortedStr_eq_of_mem_iff (sortedStr_sortedUnion a b) (sortedStr_sortedUnion b a) ?_
  intro y
  rw [mem_sortedUnion, mem_sortedUnion]
  tauto

theorem sortedUnion_absorb (a b : List String) :
    sortedUnion (sortedUnion a b) b = sortedUnion a b := by
  refine sortedStr_eq_of_mem_iff (sortedStr_sortedUnion _ b) (sortedStr_sortedUnion a b) ?_
  intro y
  simp only [mem_sortedUnion]
  tauto

/-! Lemmas about Python truthiness, the merge image rule, scoring bounds,
the heat sort and enumeration. -/

theorem pyOr_of_truthy {a : Option String} (b : Option String) (h : pyTruthy a = true) :
    pyOr a b = a := by
  simp [pyOr, h]

theorem pyOr_of_not_truthy {a : Option String} (b : Option String) (h : pyTruthy a = false) :
    pyOr a b = b := by
  simp [pyOr, h]

theorem pyOr_self (a : Option String) : pyOr a a = a := by
  cases h : pyTruthy a
  · exact pyOr_of_not_truthy a h
  · exact pyOr_of_truthy a h

theorem pyOr_right_absorb (a b : Option String) : pyOr (pyOr a b) b = pyOr a b := by
  cases ha : pyTruthy a
  · rw [pyOr_of_not_truthy b ha, pyOr_self]
  · rw [pyOr_of_truthy b ha, pyOr_of_truthy b ha]

theorem pyOr_eq_orElse {a : Option String} (b : Option String) (ha : a ≠ some "") :
    pyOr a b = (a <|> b) := by
  cases a with
  | none => simp [pyOr, pyTruthy]
  | some s =>
    have hs : ¬(s = "") := fun e => ha (by rw [e])
    simp [pyOr, pyTruthy, hs]

theorem pyTruthy_none : pyTruthy none = false := rfl

theorem mergeImage_stable (srcs rs : List String) (ei ri : Option String) :
    mergeImage srcs rs (mergeImage srcs rs ei ri) ri = mergeImage srcs rs ei ri := by
  cases hr : (!rs.isEmpty && rs.contains "Eater" && pyTruthy ri) with
  | true =>
    have hri : pyTruthy ri = true := by
      rw [Bool.and_eq_true] at hr
      exact hr.2
    have hm : ∀ x, mergeImage srcs rs x ri = ri := by
      intro x
      simp only [mergeImage, hr, eq_self_iff_true, if_true]
      simp only [hri, eq_self_iff_true, if_true]
    rw [hm, hm]
  | false =>
    cases hc : (!srcs.isEmpty && srcs.contains "Eater") with
    | false =>
      have hm : ∀ x, mergeImage srcs rs x ri = pyOr x ri := by
        intro x
        simp only [mergeImage, hr, hc, Bool.false_and, Bool.false_eq_true, if_false,
          pyTruthy_none]
      rw [hm, hm]
      exact pyOr_right_absorb ei ri
    | true =>
      cases hei : pyTruthy ei with
      | true =>
        have hm : ∀ x, pyTruthy x = true → mergeImage srcs rs x ri = x := by
          intro x hx
          simp only [mergeImage, hr, hc, hx, Bool.true_and, Bool.false_eq_true, if_false,
            eq_self_iff_true, if_true]
        rw [hm ei hei]
        exact hm ei hei
      | false =>
        have hm : mergeImage srcs rs ei ri = ri := by
          simp only [mergeImage, hr, hc, hei, Bool.true_and, Bool.false_eq_true, if_false,
            pyTruthy_none]
          exact pyOr_of_not_truthy ri hei
        rw [hm]
        cases hri : pyTruthy ri with
        | true =>
          simp only [mergeImage, hr, Bool.false_eq_true, if_false]
          simp only [hc, Bool.true_and, hri, eq_self_iff_true, if_true]
        | false =>
          simp only [mergeImage, hr, Bool.false_eq_true, if_false]
          simp only [hc, Bool.true_and, hri, Bool.false_eq_true, if_false, pyTruthy_none]
          exact pyOr_self ri

theorem bucketFold_init_le (t : String) : ∀ (l : List (Int × List String)) (init : Int),
    init ≤ bucketFold t l init := by
  intro l
  induction l with
  | nil => intro init; exact le_refl _
  | cons q tl ih =>
    intro init
    have h2 := ih (if q.2.any (fun kw => containsStr t kw) then max init q.1 else init)
    refine le_trans ?_ h2
    split
    · exact le_max_left _ _
    · exact le_refl _

theorem bucketFold_ge_of_mem (t : String) {s : Int} {kws : List String} :
    ∀ (l : List (Int × List String)) (init : Int), (s, kws) ∈ l →
      kws.any (fun kw => containsStr t kw) = true → s ≤ bucketFold t l init := by
  intro l
  induction l with
  | nil => intro init hm _; exact absurd hm (List.not_mem_nil _)
  | cons q tl ih =>
    intro init hm hk
    rcases List.mem_cons.mp hm with rfl | hm
    · show s ≤ bucketFold t tl
        (if (s, kws).2.any (fun kw => containsStr t kw) then max init (s, kws).1 else init)
      simp only [hk, if_true]
      exact le_trans (le_max_right init s) (bucketFold_init_le t tl (max init s))
    · exact ih _ hm hk

theorem keywordScore_le (text : String) (buckets : List (Int × List String)) {maxS : Int}
    (h : 0 ≤ maxS) : keywordScore text buckets maxS ≤ maxS := by
  unfold keywordScore
  split
  · exact h
  · exact min_le_right _ _

theorem keywordScore_nonneg (text : String) (buckets : List (Int × List String)) {maxS : Int}
    (h : 0 ≤ maxS) : 0 ≤ keywordScore text buckets maxS := by
  unfold keywordScore
  split
  · exact le_refl 0
  · exact le_min (bucketFold_init_le (lowerStr text) buckets 0) h

theorem mem_insertByHeat {x r : Restaurant} : ∀ {l : List Restaurant},
    x ∈ insertByHeat r l ↔ x = r ∨ x ∈ l := by
  intro l
  induction l with
  | nil => simp [insertByHeat]
  | cons a t ih =>
    by_cases h : a.heat_score < r.heat_score
    · simp [insertByHeat, h]
    · simp only [insertByHeat, h, if_false, List.mem_cons, ih]
      tauto

theorem mem_sortByHeat {x : Restaurant} {l : List Restaurant} :
    x ∈ sortByHeat l ↔ x ∈ l := by
  have main : ∀ (l acc : List Restaurant),
      x ∈ l.foldl (fun acc r => insertByHeat r acc) acc ↔ x ∈ acc ∨ x ∈ l := by
    intro l
    induction l with
    | nil => intro acc; simp
    | cons a t ih =>
      intro acc
      rw [List.foldl_cons, ih]
      simp only [mem_insertByHeat, List.mem_cons]
      tauto
  rw [sortByHeat, main]
  simp

theorem fst_lt_of_mem_enumFrom {α : Type} : ∀ {l : List α} (n : Nat) {p : Nat × α},
    p ∈ l.enumFrom n → p.1 < n + l.length := by
  intro l
  induction l with
  | nil => intro n p h; exact absurd h (List.not_mem_nil _)
  | cons a t ih =>
    intro n p h
    rw [List.enumFrom_cons] at h
    rcases List.mem_cons.mp h with rfl | h
    · simp
    · have := ih (n + 1) h
      simp only [List.length_cons]
      omega

theorem fst_lt_of_mem_enum {α : Type} {l : List α} {p : Nat × α} (h : p ∈ l.enum) :
    p.1 < l.length := by
  have := fst_lt_of_mem_enumFrom 0 h
  simpa using this

/-! Lemmas about name normalization. -/

theorem normName_data (s : String) :
    (normName s).data =
      (collapseWs false (aposL (trimL ((stripLeadingNumbering s).data.map Char.toLower)))).filter
        allowedChar := rfl

theorem allowed_of_mem_normName {c : Char} {s : String} (h : c ∈ (normName s).data) :
    allowedChar c = true := by
  rw [normName_data] at h
  exact (List.mem_filter.mp h).2

theorem toNat_notin_upper_of_allowed {c : Char} (h : allowedChar c = true) :
    ¬(c.toNat ≥ 65 ∧ c.toNat ≤ 90) := by
  simp only [allowedChar, Bool.or_eq_true, Bool.and_eq_true, decide_eq_true_eq,
    beq_iff_eq] at h
  rcases h with ((((⟨h1, h2⟩ | ⟨h1, h2⟩) | rfl) | rfl) | rfl) | rfl
  · omega
  · omega
  · decide
  · decide
  · decide
  · decide

theorem toLower_eq_self_of_allowed {c : Char} (h : allowedChar c = true) :
    c.toLower = c := by
  simp only [Char.toLower]
  rw [if_neg (toNat_notin_upper_of_allowed h)]

theorem apos_eq_self_of_allowed {c : Char} (h : allowedChar c = true) :
    (if c == '’' then '\'' else c) = c := by
  have hne : ¬((c == '’') = true) := fun he => by
    have hc : c = '’' := by simpa using he
    rw [hc] at h
    exact absurd h (by decide)
  rw [if_neg hne]

theorem map_id_of_fixed {α : Type} (f : α → α) :
    ∀ (l : List α), (∀ c ∈ l, f c = c) → l.map f = l := by
  intro l
  induction l with
  | nil => intro _; rfl
  | cons a t ih =>
    intro h
    rw [List.map_cons, h a (List.mem_cons_self a t),
      ih (fun c hc => h c (List.mem_cons.mpr (Or.inr hc)))]

theorem normName_idem_of_fixed (s : String)
    (h1 : stripOrdL (normName s).data = (normName s).data)
    (h2 : trimL (normName s).data = (normName s).data)
    (h3 : collapseWs false (normName s).data = (normName s).data) :
    normName (normName s) = normName s := by
  have hall : ∀ c ∈ (normName s).data, allowedChar c = true :=
    fun c hc => allowed_of_mem_normName hc
  by_cases hemp : (normName s).data.isEmpty
  · have hd : (normName s).data = [] := by simpa using hemp
    have he : normName s = ⟨[]⟩ := string_eq_of_data_eq hd
    rw [he]
    rfl
  · have hstrip : stripLeadingNumbering (normName s) = normName s := by
      unfold stripLeadingNumbering
      rw [if_neg hemp, h1, h2]
    have e1 : (stripLeadingNumbering (normName s)).data = (normName s).data := by rw [hstrip]
    have e2 : (normName s).data.map Char.toLower = (normName s).data :=
      map_id_of_fixed _ _ (fun c hc => toLower_eq_self_of_allowed (hall c hc))
    have e3 : aposL (normName s).data = (normName s).data :=
      map_id_of_fixed _ _ (fun c hc => apos_eq_self_of_allowed (hall c hc))
    have e4 : (normName s).data.filter allowedChar = (normName s).data :=
      List.filter_eq_self.mpr hall
    apply string_eq_of_data_eq
    rw [normName_data (normName s), e1, e2, h2, e3, h3, e4]

/-! Re-merge stability of the dedupe reducer. -/

theorem mergeInto_restab (a b : Restaurant) :
    mergeInto (mergeInto a b) b = mergeInto a b := by
  simp only [mergeInto, Option.getD_some, Restaurant.mk.injEq, sortedUnion_absorb,
    pyOr_right_absorb, mergeImage_stable, and_true, true_and, and_self]

theorem list_contains_iff {l : List String} {a : String} : l.contains a = true ↔ a ∈ l :=
  List.elem_iff

/-! Claim theorems. -/

/-- Claim C5, counterexample: a plain 85-character candidate lies inside
the spec's claimed [2, 90] length window and passes every content rule,
yet the classifier rejects it; the same candidate trimmed to 80 characters
is accepted, exhibiting the actual upper bound 80. -/
theorem C5_counterexample :
    looksLikeRestaurantName ⟨List.replicate 85 'x'⟩ = false ∧
      2 ≤ (List.replicate 85 'x').length ∧ (List.replicate 85 'x').length ≤ 90 ∧
      nameContentChecks ⟨List.replicate 85 'x'⟩ = true ∧
      looksLikeRestaurantName ⟨List.replicate 80 'x'⟩ = true := by
  refine ⟨by decide, by decide, by decide, by decide, by decide⟩

/-- Claim C5, amended: the Name Classifier accepts a candidate exactly
when it is non-empty, its core (after trimming and ordinal stripping) has
length in [2, 80] — not [2, 90] as claimed — and the content rules
(reject-list, month-and-day, marketing prefixes, promotional fragments,
digits-and-punctuation) accept it; so inside [2, 80] the length check
rejects nothing, and outside [2, 80] everything. -/
theorem C5_length_bounds (name : String) :
    looksLikeRestaurantName name = true ↔
      (name ≠ "" ∧ 2 ≤ (stripLeadingNumbering (trimStr name)).length ∧
        (stripLeadingNumbering (trimStr name)).length ≤ 80 ∧
        nameContentChecks (stripLeadingNumbering (trimStr name)) = true) := by
  constructor
  · intro h
    simp only [looksLikeRestaurantName] at h
    by_cases h0 : (name == "") = true
    · rw [if_pos h0] at h
      exact absurd h (by simp)
    · rw [if_neg h0] at h
      by_cases hlen : (decide ((stripLeadingNumbering (trimStr name)).length < 2) ||
          decide (80 < (stripLeadingNumbering (trimStr name)).length)) = true
      · rw [if_pos hlen] at h
        exact absurd h (by simp)
      · rw [if_neg hlen] at h
        simp only [Bool.or_eq_true, decide_eq_true_eq, not_or, Nat.not_lt] at hlen
        exact ⟨by simpa using h0, hlen.1, hlen.2, h⟩
  · rintro ⟨h0, h2, h80, hc⟩
    simp only [looksLikeRestaurantName]
    rw [if_neg (by simpa using h0), if_neg (by
      simp only [Bool.or_eq_true, decide_eq_true_eq, not_or, Nat.not_lt]
      exact ⟨h2, h80⟩)]
    exact hc

/-- Claim C7, counterexample: normalization is not idempotent — removing
the disallowed character of "a # b" leaves two adjacent spaces, which a
second normalization collapses. -/
theorem C7_counterexample :
    normName "a # b" = "a  b" ∧ normName (normName "a # b") = "a b" ∧
      normName (normName "a # b") ≠ normName "a # b" := by
  refine ⟨by decide, by decide, by decide⟩

/-- Claim C7, amended: normalization is idempotent on every input whose
normalized form is already a fixed point of the cleanup stages — no
leading ordinal prefix to strip, nothing to trim, no whitespace run to
collapse.  (A second normalization can otherwise strip a newly-exposed
ordinal or space, or re-collapse spaces merged by character removal.) -/
theorem C7_norm_idem (s : String)
    (h1 : stripOrdL (normName s).data = (normName s).data)
    (h2 : trimL (normName s).data = (normName s).data)
    (h3 : collapseWs false (normName s).data = (normName s).data) :
    normName (normName s) = normName s :=
  normName_idem_of_fixed s h1 h2 h3

/-- Witness for C7_norm_idem at the concrete input "Joe's Pizza". -/
theorem C7_witness :
    stripOrdL (normName "Joe's Pizza").data = (normName "Joe's Pizza").data ∧
      trimL (normName "Joe's Pizza").data = (normName "Joe's Pizza").data ∧
      collapseWs false (normName "Joe's Pizza").data = (normName "Joe's Pizza").data ∧
      normName (normName "Joe's Pizza") = normName "Joe's Pizza" :=
  ⟨by decide, by decide, by decide,
    C7_norm_idem "Joe's Pizza" (by decide) (by decide) (by decide)⟩

/-- Claim C3 (confirmed): after scoring, every entry's heat score lies in
[0, 100] — whatever the weights, keyword tables, entries and last-period
names are. -/
theorem C3_heat_bounds (W : Weights) (intensity scarcity : List (Int × List String))
    (rs : List Restaurant) (last : List String) (r : Restaurant)
    (h : r ∈ computeHeat W intensity scarcity rs last) :
    0 ≤ r.heat_score ∧ r.heat_score ≤ 100 := by
  simp only [computeHeat] at h
  rw [mem_sortByHeat] at h
  rcases List.mem_map.mp h with ⟨r0, _, rfl⟩
  constructor
  · exact le_max_left 0 _
  · exact max_le (by norm_num) (min_le_left _ _)

/-- Sample entry for the C3 witness. -/
def c3Entry : Restaurant := { name := "Carbone", sources := some ["Resy"] }

/-- Witness for C3_heat_bounds on a concrete run. -/
theorem C3_witness :
    0 ≤ ((computeHeat WEIGHTS INTENSITY_KEYWORDS SCARCITY_KEYWORDS [c3Entry] []).headI).heat_score ∧
      ((computeHeat WEIGHTS INTENSITY_KEYWORDS SCARCITY_KEYWORDS [c3Entry] []).headI).heat_score ≤ 100 :=
  C3_heat_bounds WEIGHTS INTENSITY_KEYWORDS SCARCITY_KEYWORDS [c3Entry] [] _ (by decide)

theorem scoreOne_heat_le (lastSet : List String) (r : Restaurant) :
    (scoreOne WEIGHTS INTENSITY_KEYWORDS SCARCITY_KEYWORDS lastSet r).heat_score ≤ 90 := by
  have hs1 : (if "Resy" ∈ r.sources.getD [] ∧ "Eater" ∈ r.sources.getD []
      then WEIGHTS.both_sources_bonus else 0) ≤ 40 := by
    split
    · decide
    · decide
  have hs2 : (if normName r.name ∈ lastSet then WEIGHTS.carried_over_bonus
      else WEIGHTS.new_this_month_bonus) ≤ 20 := by
    split
    · decide
    · decide
  have hs3 : keywordScore (r.why_hot.getD "") INTENSITY_KEYWORDS
      WEIGHTS.language_intensity_max ≤ 15 :=
    keywordScore_le _ _ (by decide)
  have hs4 : keywordScore (r.why_hot.getD "") SCARCITY_KEYWORDS
      WEIGHTS.reservation_scarcity_max ≤ 15 :=
    keywordScore_le _ _ (by decide)
  show max 0 (min 100
      ((if "Resy" ∈ r.sources.getD [] ∧ "Eater" ∈ r.sources.getD []
          then WEIGHTS.both_sources_bonus else 0) +
        (if normName r.name ∈ lastSet then WEIGHTS.carried_over_bonus
          else WEIGHTS.new_this_month_bonus) +
        keywordScore (r.why_hot.getD "") INTENSITY_KEYWORDS WEIGHTS.language_intensity_max +
        keywordScore (r.why_hot.getD "") SCARCITY_KEYWORDS WEIGHTS.reservation_scarcity_max))
      ≤ 90
  refine max_le (by norm_num) (le_trans (min_le_right _ _) ?_)
  linarith [hs1, hs2, hs3, hs4]

/-- Claim C10 (confirmed): under the shipped configuration the heat score
never exceeds 90, so the clamp's upper bound 100 is never attained — the
two novelty bonuses are mutually exclusive and each keyword table is
capped at its ceiling. -/
theorem C10_heat_at_most_90 (rs : List Restaurant) (last : List String) (r : Restaurant)
    (h : r ∈ computeHeat WEIGHTS INTENSITY_KEYWORDS SCARCITY_KEYWORDS rs last) :
    r.heat_score ≤ 90 := by
  simp only [computeHeat] at h
  rw [mem_sortByHeat] at h
  rcases List.mem_map.mp h with ⟨r0, _, rfl⟩
  exact scoreOne_heat_le _ r0

/-- Sample entry for the C10 witness: every shipped bonus fires. -/
def c10Entry : Restaurant :=
  { name := "Lilia",
    why_hot := some "months out, the hardest table, walk-in only counter seats ticketed",
    sources := some ["Eater", "Resy"] }

/-- Witness for C10_heat_at_most_90 on a concrete run. -/
theorem C10_witness :
    ((computeHeat WEIGHTS INTENSITY_KEYWORDS SCARCITY_KEYWORDS [c10Entry] []).headI).heat_score
      ≤ 90 :=
  C10_heat_at_most_90 [c10Entry] [] _ (by decide)

/-- Rewriting `keyword_score` on non-empty text. -/
theorem keywordScore_eq_min {text : String} (h : (text == "") = false)
    (buckets : List (Int × List String)) (maxS : Int) :
    keywordScore text buckets maxS = min (bucketFold (lowerStr text) buckets 0) maxS := by
  simp only [keywordScore, h, Bool.false_eq_true, if_false]

/-- Sample entry for claim C1: both sources, new this month, blurb
containing "sold out" and no other scoring keyword. -/
def c1Entry : Restaurant :=
  { name := "Lilia",
    why_hot := some "sold out for weeks, the dining room seats twenty people nightly",
    sources := some ["Resy", "Eater"] }

/-- Claim C1, counterexample: an entry in both sources, new this month,
whose blurb contains "sold out", scores 40 + 20 + 12 + 0 = 72 — not
both_sources_bonus + new_this_month_bonus + intensity_ceiling +
scarcity_ceiling = 90: "sold out" sits in the 12-valued intensity bucket
(below the ceiling 15) and matches no scarcity keyword at all. -/
theorem C1_counterexample :
    ("Resy" ∈ c1Entry.sources.getD [] ∧ "Eater" ∈ c1Entry.sources.getD []) ∧
      containsStr (lowerStr (c1Entry.why_hot.getD "")) "sold out" = true ∧
      normName c1Entry.name ∉ ([] : List String).map normName ∧
      (computeHeat WEIGHTS INTENSITY_KEYWORDS SCARCITY_KEYWORDS [c1Entry] []).map
        (fun r => r.heat_score) = [72] ∧
      (72 : Int) ≠ 40 + 20 + 15 + 15 := by
  refine ⟨by decide, by decide, by decide, by decide, by decide⟩

/-- Claim C1, amended: for an entry carrying both source labels, not in
the last-period set, whose blurb contains "sold out", the heat score is
exactly both_sources_bonus + new_this_month_bonus + the blurb's intensity
bucket score + the blurb's scarcity bucket score, where the intensity
score lies in [12, 15] (12 is the bucket of "sold out") and the scarcity
score in [0, 15]; the total is therefore in [72, 90] — never clamped —
and equals 90 only if further keywords match. -/
theorem C1_scoring (r : Restaurant) (last : List String)
    (hresy : "Resy" ∈ r.sources.getD []) (heater : "Eater" ∈ r.sources.getD [])
    (hblurb : containsStr (lowerStr (r.why_hot.getD "")) "sold out" = true)
    (hnew : normName r.name ∉ last.map normName) :
    computeHeat WEIGHTS INTENSITY_KEYWORDS SCARCITY_KEYWORDS [r] last =
        [scoreOne WEIGHTS INTENSITY_KEYWORDS SCARCITY_KEYWORDS (last.map normName) r] ∧
      (scoreOne WEIGHTS INTENSITY_KEYWORDS SCARCITY_KEYWORDS (last.map normName) r).heat_score =
        40 + 20 + keywordScore (r.why_hot.getD "") INTENSITY_KEYWORDS 15 +
          keywordScore (r.why_hot.getD "") SCARCITY_KEYWORDS 15 ∧
      12 ≤ keywordScore (r.why_hot.getD "") INTENSITY_KEYWORDS 15 ∧
      keywordScore (r.why_hot.getD "") INTENSITY_KEYWORDS 15 ≤ 15 ∧
      0 ≤ keywordScore (r.why_hot.getD "") SCARCITY_KEYWORDS 15 ∧
      keywordScore (r.why_hot.getD "") SCARCITY_KEYWORDS 15 ≤ 15 := by
  have htext : (r.why_hot.getD "" == "") = false := by
    cases he : (r.why_hot.getD "" == "") with
    | false => rfl
    | true =>
      exfalso
      have e : r.why_hot.getD "" = "" := by simpa using he
      rw [e] at hblurb
      exact absurd hblurb (by decide)
  have hany : (["hard to book", "tough reservation", "impossible", "sold out", "booked up"]).any
      (fun kw => containsStr (lowerStr (r.why_hot.getD "")) kw) = true :=
    List.any_eq_true.mpr ⟨"sold out", by decide, hblurb⟩
  have hi12 : (12 : Int) ≤ keywordScore (r.why_hot.getD "") INTENSITY_KEYWORDS 15 := by
    rw [keywordScore_eq_min htext]
    refine le_min ?_ (by norm_num)
    exact bucketFold_ge_of_mem _ INTENSITY_KEYWORDS 0
      (show ((12 : Int), ["hard to book", "tough reservation", "impossible", "sold out",
        "booked up"]) ∈ INTENSITY_KEYWORDS by decide) hany
  have hi15 : keywordScore (r.why_hot.getD "") INTENSITY_KEYWORDS 15 ≤ 15 :=
    keywordScore_le _ _ (by norm_num)
  have hsc0 : (0 : Int) ≤ keywordScore (r.why_hot.getD "") SCARCITY_KEYWORDS 15 :=
    keywordScore_nonneg _ _ (by norm_num)
  have hsc15 : keywordScore (r.why_hot.getD "") SCARCITY_KEYWORDS 15 ≤ 15 :=
    keywordScore_le _ _ (by norm_num)
  refine ⟨rfl, ?_, hi12, hi15, hsc0, hsc15⟩
  simp only [scoreOne, WEIGHTS]
  rw [if_pos ⟨hresy, heater⟩, if_neg hnew]
  rw [min_eq_right (by linarith [hi15, hsc15]), max_eq_right (by linarith [hi12, hsc0])]

/-- Witness for C1_scoring at the concrete entry. -/
theorem C1_witness :
    computeHeat WEIGHTS INTENSITY_KEYWORDS SCARCITY_KEYWORDS [c1Entry] [] =
        [scoreOne WEIGHTS INTENSITY_KEYWORDS SCARCITY_KEYWORDS (([] : List String).map normName)
          c1Entry] ∧
      (scoreOne WEIGHTS INTENSITY_KEYWORDS SCARCITY_KEYWORDS (([] : List String).map normName)
          c1Entry).heat_score =
        40 + 20 + keywordScore (c1Entry.why_hot.getD "") INTENSITY_KEYWORDS 15 +
          keywordScore (c1Entry.why_hot.getD "") SCARCITY_KEYWORDS 15 ∧
      12 ≤ keywordScore (c1Entry.why_hot.getD "") INTENSITY_KEYWORDS 15 ∧
      keywordScore (c1Entry.why_hot.getD "") INTENSITY_KEYWORDS 15 ≤ 15 ∧
      0 ≤ keywordScore (c1Entry.why_hot.getD "") SCARCITY_KEYWORDS 15 ∧
      keywordScore (c1Entry.why_hot.getD "") SCARCITY_KEYWORDS 15 ≤ 15 :=
  C1_scoring c1Entry [] (by decide) (by decide) (by decide) (by decide)

theorem pyTruthy_isSome {o : Option String} (h : pyTruthy o = true) : o.isSome = true := by
  cases o with
  | none => exact absurd h (by simp [pyTruthy])
  | some s => rfl

theorem pyTruthy_of_clean {o : Option String} (h1 : o.isSome = true) (h2 : o ≠ some "") :
    pyTruthy o = true := by
  cases o with
  | none => simp at h1
  | some s =>
    have hs : ¬(s = "") := fun e => h2 (by rw [e])
    simp [pyTruthy, hs]

theorem mergeImage_eater_r (srcs rs : List String) (ei : Option String) {ri : Option String}
    (hmem : "Eater" ∈ rs) (htr : pyTruthy ri = true) :
    mergeImage srcs rs ei ri = ri := by
  have h1 : rs.isEmpty = false := by
    cases rs with
    | nil => exact absurd hmem (List.not_mem_nil _)
    | cons a t => rfl
  have h2 : rs.contains "Eater" = true := list_contains_iff.mpr hmem
  simp only [mergeImage, h1, h2, htr, Bool.not_false, Bool.true_and, Bool.and_true,
    Bool.and_self, eq_self_iff_true, if_true]

theorem mergeImage_no_eater {srcs rs : List String} (ei ri : Option String)
    (h1 : "Eater" ∉ srcs) (h2 : "Eater" ∉ rs) :
    mergeImage srcs rs ei ri = pyOr ei ri := by
  have hc1 : srcs.contains "Eater" = false := by
    cases hcc : srcs.contains "Eater" with
    | false => rfl
    | true => exact absurd (list_contains_iff.mp hcc) h1
  have hc2 : rs.contains "Eater" = false := by
    cases hcc : rs.contains "Eater" with
    | false => rfl
    | true => exact absurd (list_contains_iff.mp hcc) h2
  simp only [mergeImage, hc1, hc2, Bool.and_false, Bool.false_and, Bool.false_eq_true,
    if_false, pyTruthy_none]

theorem mergeImage_isSome (srcs rs : List String) {ei : Option String} (ri : Option String)
    (h : pyTruthy ei = true) : (mergeImage srcs rs ei ri).isSome = true := by
  cases hr : (!rs.isEmpty && rs.contains "Eater" && pyTruthy ri) with
  | true =>
    have hri : pyTruthy ri = true := by
      rw [Bool.and_eq_true] at hr
      exact hr.2
    simp only [mergeImage, hr, eq_self_iff_true, if_true]
    simp only [hri, eq_self_iff_true, if_true]
    exact pyTruthy_isSome hri
  | false =>
    cases hc : (!srcs.isEmpty && srcs.contains "Eater" && pyTruthy ei) with
    | false =>
      simp only [mergeImage, hr, hc, Bool.false_eq_true, if_false, pyTruthy_none]
      rw [pyOr_of_truthy ri h]
      exact pyTruthy_isSome h
    | true =>
      simp only [mergeImage, hr, hc, Bool.false_eq_true, if_false, eq_self_iff_true,
        if_true]
      simp only [h, eq_self_iff_true, if_true]
      exact pyTruthy_isSome h

/-- An entry whose optional string fields are each absent or non-empty
(the extractors never produce empty-string fields). -/
def CleanFields (r : Restaurant) : Prop :=
  r.url ≠ some "" ∧ r.image_url ≠ some "" ∧ r.why_hot ≠ some "" ∧
    r.neighborhood ≠ some "" ∧ r.cuisine ≠ some ""

/-- First merged Eater entry for the C2 counterexample. -/
def c2First : Restaurant :=
  { name := "Lilia", image_url := some "https://cdn.eater.com/first.jpg",
    sources := some ["Eater"] }

/-- Second merged Eater entry for the C2 counterexample. -/
def c2Second : Restaurant :=
  { name := "Lilia", image_url := some "https://cdn.eater.com/second.jpg",
    sources := some ["Eater"] }

/-- Claim C2, counterexample: merging two entries from the same (highest
trust) publisher keeps the LATER image — "otherwise first non-null wins"
fails, since neither image belongs to a lower-trust publisher and yet the
second overrides the first. -/
theorem C2_counterexample :
    (dedupe [c2First, c2Second]).map (fun r => r.image_url) =
        [some "https://cdn.eater.com/second.jpg"] ∧
      some "https://cdn.eater.com/second.jpg" ≠ c2First.image_url := by
  refine ⟨by decide, by decide⟩

/-- Claim C2, amended: for a merged pair with non-empty optional fields,
url, blurb, neighborhood and cuisine take the first non-null value; a
populated url or image never becomes null; an incoming entry that carries
the Eater label and an image always wins the image slot (even over an
earlier Eater image); and when neither side carries the Eater label the
image is the first non-null value. -/
theorem C2_merge_policy (e r : Restaurant) (he : CleanFields e) (hr : CleanFields r) :
    ((mergeInto e r).url = (e.url <|> r.url) ∧
      (mergeInto e r).why_hot = (e.why_hot <|> r.why_hot) ∧
      (mergeInto e r).neighborhood = (e.neighborhood <|> r.neighborhood) ∧
      (mergeInto e r).cuisine = (e.cuisine <|> r.cuisine)) ∧
    (e.url.isSome = true → (mergeInto e r).url = e.url) ∧
    (e.image_url.isSome = true → (mergeInto e r).image_url.isSome = true) ∧
    ("Eater" ∈ r.sources.getD [] → r.image_url.isSome = true →
      (mergeInto e r).image_url = r.image_url) ∧
    ("Eater" ∉ e.sources.getD [] → "Eater" ∉ r.sources.getD [] →
      (mergeInto e r).image_url = (e.image_url <|> r.image_url)) := by
  obtain ⟨heu, hei, hew, hen, hec⟩ := he
  obtain ⟨hru, hri, hrw, hrn, hrc⟩ := hr
  refine ⟨⟨?_, ?_, ?_, ?_⟩, ?_, ?_, ?_, ?_⟩
  · exact pyOr_eq_orElse r.url heu
  · exact pyOr_eq_orElse r.why_hot hew
  · exact pyOr_eq_orElse r.neighborhood hen
  · exact pyOr_eq_orElse r.cuisine hec
  · intro hs
    exact pyOr_of_truthy r.url (pyTruthy_of_clean hs heu)
  · intro hs
    exact mergeImage_isSome _ _ r.image_url (pyTruthy_of_clean hs hei)
  · intro hm hs
    exact mergeImage_eater_r _ _ e.image_url hm (pyTruthy_of_clean hs hri)
  · intro h1 h2
    have hnu : "Eater" ∉ sortedUnion (e.sources.getD []) (r.sources.getD []) := by
      intro hmem
      rcases mem_sortedUnion.mp hmem with h | h
      · exact h1 h
      · exact h2 h
    show mergeImage (sortedUnion (e.sources.getD []) (r.sources.getD []))
        (r.sources.getD []) e.image_url r.image_url = (e.image_url <|> r.image_url)
    rw [mergeImage_no_eater e.image_url r.image_url hnu h2]
    exact pyOr_eq_orElse r.image_url hei

/-- Resy-side entry for the C2 witness. -/
def c2eEntry : Restaurant :=
  { name := "Lilia", url := some "https://resy.com/cities/new-york-ny/venues/lilia",
    why_hot := some "sold out for weeks", sources := some ["Resy"] }

/-- Eater-side entry for the C2 witness. -/
def c2rEntry : Restaurant :=
  { name := "Lilia", image_url := some "https://cdn.eater.com/lilia.jpg",
    neighborhood := some "Williamsburg", sources := some ["Eater"] }

/-- Witness for C2_merge_policy at concrete entries. -/
theorem C2_witness :
    (((mergeInto c2eEntry c2rEntry).url = (c2eEntry.url <|> c2rEntry.url)) ∧
      (mergeInto c2eEntry c2rEntry).why_hot = (c2eEntry.why_hot <|> c2rEntry.why_hot) ∧
      (mergeInto c2eEntry c2rEntry).neighborhood =
        (c2eEntry.neighborhood <|> c2rEntry.neighborhood) ∧
      (mergeInto c2eEntry c2rEntry).cuisine = (c2eEntry.cuisine <|> c2rEntry.cuisine)) ∧
    (c2eEntry.url.isSome = true → (mergeInto c2eEntry c2rEntry).url = c2eEntry.url) ∧
    (c2eEntry.image_url.isSome = true →
      (mergeInto c2eEntry c2rEntry).image_url.isSome = true) ∧
    ("Eater" ∈ c2rEntry.sources.getD [] → c2rEntry.image_url.isSome = true →
      (mergeInto c2eEntry c2rEntry).image_url = c2rEntry.image_url) ∧
    ("Eater" ∉ c2eEntry.sources.getD [] → "Eater" ∉ c2rEntry.sources.getD [] →
      (mergeInto c2eEntry c2rEntry).image_url =
        (c2eEntry.image_url <|> c2rEntry.image_url)) :=
  C2_merge_policy c2eEntry c2rEntry
    ⟨by decide, by decide, by decide, by decide, by decide⟩
    ⟨by decide, by decide, by decide, by decide, by decide⟩

/-- Claim C8 (confirmed): merging is stable under repetition — re-merging
the same entry, or the same pair in the same order, changes nothing — and
the merged sources list is identical whichever entry comes first (the
union is commutative and idempotent). -/
theorem C8_merge_idem_comm (a b : Restaurant) :
    mergeInto (mergeInto a a) a = mergeInto a a ∧
      mergeInto (mergeInto a b) b = mergeInto a b ∧
      (mergeInto a b).sources = (mergeInto b a).sources := by
  refine ⟨mergeInto_restab a a, mergeInto_restab a b, ?_⟩
  simp only [mergeInto]
  rw [sortedUnion_comm]

theorem resyEntryIdxName_fst_lt (hs : List RHeading) :
    ∀ q ∈ resyEntryIdxName hs, q.1 < endExclusive hs := by
  intro q hq
  rcases List.mem_filterMap.mp hq with ⟨pr, hpr, hpr2⟩
  have hlt : pr.1 < endExclusive hs := by
    have h6 := fst_lt_of_mem_enum hpr
    rw [List.length_take] at h6
    omega
  cases hln : leadingNum pr.2.cleaned with
  | none =>
    simp only [hln] at hpr2
    exact Option.noConfusion hpr2
  | some n =>
    simp only [hln] at hpr2
    split at hpr2
    · rw [← Option.some.inj hpr2]
      exact hlt
    · simp at hpr2

theorem resyCleanedEntries_fst_lt (hs : List RHeading) :
    ∀ p ∈ resyCleanedEntries hs, p.1 < endExclusive hs := by
  intro p hp
  rcases List.mem_filterMap.mp hp with ⟨q, hq, hq2⟩
  have hqlt := resyEntryIdxName_fst_lt hs q hq
  simp only [] at hq2
  split at hq2
  · rw [← Option.some.inj hq2]
    exact hqlt
  · simp at hq2

/-- Claim C4 (confirmed): when a stop-phrase heading appears after the
last monotonically-numbered heading, the usable heading range ends at the
earlier of the two boundaries (one past the last numbered heading versus
the stop heading), and no entry is produced from any heading at or beyond
the stop heading. -/
theorem C4_stop_boundary (hs : List RHeading) (si li : Nat)
    (hstop : stopIdxR hs = some si) (hlast : (lastNumScan hs).2 = some li)
    (hlt : li < si) :
    endExclusive hs = min (li + 1) si ∧ ∀ p ∈ resyCleanedEntries hs, p.1 < si := by
  have hend : endExclusive hs = li + 1 := by
    unfold endExclusive
    rw [hlast, hstop]
    simp [hlt]
  refine ⟨?_, ?_⟩
  · rw [hend, Nat.min_eq_left (by omega : li + 1 ≤ si)]
  · intro p hp
    have hb := resyCleanedEntries_fst_lt hs p hp
    rw [hend] at hb
    omega

/-- The three headings of the C4 witness: two numbered entries and a
trailing stop heading. -/
def c4Headings : List RHeading :=
  [⟨"1. Carbone", "1. Carbone"⟩, ⟨"2. Don Angie", "2. Don Angie"⟩,
   ⟨"Related Restaurants", "Related Restaurants"⟩]

/-- Witness for C4_stop_boundary at a concrete heading list. -/
theorem C4_witness : endExclusive c4Headings = min (1 + 1) 2 :=
  (C4_stop_boundary c4Headings 2 1 (by decide) (by decide) (by decide)).1

/-- Entry whose name normalizes to the empty string (claim C6). -/
def c6Entry : Restaurant := { name := "??" }

/-- Claim C6 (code bug): `dedupe` keeps an entry whose dedupe key — the
normalized name — is empty; the spec's "empty keys MUST be excluded from
output" is not implemented anywhere in the merge stage. -/
theorem C6_empty_key_kept :
    dedupe [c6Entry] = [c6Entry] ∧ normName c6Entry.name = "" := by
  refine ⟨by decide, by decide⟩

/-- Document with no headings but a booking-platform link (claim C9). -/
def c9Doc : EaterDoc :=
  ⟨[], [⟨"https://resy.com/cities/new-york-ny/venues/carbone", "Carbone"⟩]⟩

/-- Claim C9, counterexample: heading extraction yields zero entries
(fewer than five) and the document carries a booking-platform link whose
anchor is name-like, yet the extractor produces no entry at all — the
claimed link-scanning fallback does not exist in the code. -/
theorem C9_counterexample :
    extractEaterHeatmap c9Doc = [] ∧
      (extractEaterHeatmap c9Doc).length < 5 ∧
      c9Doc.strayLinks.any (fun l =>
        (containsStr l.href "resy.com" || containsStr l.href "opentable.com") &&
          looksLikeRestaurantName l.anchor) = true := by
  refine ⟨by decide, by decide, by decide⟩

/-- Claim C9, amended: the Eater extractor has no fallback of any kind —
its output never depends on links outside the heading slices, and every
entry it produces comes from a heading that passes the title gate, with
the heading's (ordinal-stripped) text as its name and Eater as its only
source. -/
theorem C9_no_fallback (hs : List EaterHeading) (l₁ l₂ : List ELink) (r : Restaurant) :
    extractEaterHeatmap ⟨hs, l₁⟩ = extractEaterHeatmap ⟨hs, l₂⟩ ∧
      (r ∈ extractEaterHeatmap ⟨hs, l₁⟩ →
        r.sources = some ["Eater"] ∧
        hs.any (fun h => eaterHeadingGuards h.text &&
          (r.name == stripLeadingNumbering h.text)) = true) := by
  constructor
  · rfl
  · intro hmem
    rcases List.mem_filterMap.mp hmem with ⟨h, hh, hsome⟩
    split at hsome
    · rename_i hguard
      have hinj := Option.some.inj hsome
      constructor
      · rw [← hinj]
      · refine List.any_eq_true.mpr ⟨h, hh, ?_⟩
        rw [← hinj]
        simp [hguard]
    · simp at hsome

/-- Heading for the C9 witness. -/
def c9Heading : EaterHeading := { text := "Carbone" }

/-- The single entry the C9 witness document yields. -/
def c9Out : Restaurant := (extractEaterHeatmap ⟨[c9Heading], c9Doc.strayLinks⟩).headI

/-- Witness for C9_no_fallback at a concrete document. -/
theorem C9_witness :
    (extractEaterHeatmap ⟨[c9Heading], c9Doc.strayLinks⟩ =
        extractEaterHeatmap ⟨[c9Heading], []⟩) ∧
      (c9Out.sources = some ["Eater"] ∧
        [c9Heading].any (fun h => eaterHeadingGuards h.text &&
          (c9Out.name == stripLeadingNumbering h.text)) = true) :=
  ⟨(C9_no_fallback [c9Heading] c9Doc.strayLinks [] c9Out).1,
   (C9_no_fallback [c9Heading] c9Doc.strayLinks [] c9Out).2 (by decide)⟩
